import Mathlib

set_option maxRecDepth 8192

/-!
Shallow embedding of the SRF2019 scraper core (scraper.py): the session
text segmenter (`extract_papers_from_session`), the per-paper field
extractor (`extract_paper_details_from_page`), the resource prober
(`check_pdf_exists`) and the session-level count computations of
`save_session_data` / `save_session_txt`.  Text is modelled as `List Char`
(Python `str` over ASCII); the regexes of the source are modelled by the
explicit scanning functions below; the network is abstracted as an oracle.
-/

/-- Python `str.split(sep)` for a one-character separator, over character
lists: `"a,,b".split(",") == ["a", "", "b"]` and `"".split(",") == [""]`. -/
def splitOnChar (sep : Char) : List Char → List (List Char)
  | [] => [[]]
  | c :: cs =>
    if c = sep then [] :: splitOnChar sep cs
    else
      match splitOnChar sep cs with
      | [] => [[c]]
      | t :: ts => (c :: t) :: ts

/-- Python `str.strip()`: remove leading and trailing whitespace. -/
def trimChars (l : List Char) : List Char :=
  ((l.dropWhile Char.isWhitespace).reverse.dropWhile Char.isWhitespace).reverse

/-- Index of the first occurrence of `needle` as a contiguous substring of
the haystack (Python `str.find` as an `Option`); it is also the start of the
leftmost `re.search` match for a pattern that begins with the literal
`needle` followed only by parts that can match the empty string. -/
def findSubstrIdx (needle : List Char) : List Char → Option Nat
  | [] => if needle.isEmpty then some 0 else none
  | c :: cs =>
    if needle.isPrefixOf (c :: cs) then some 0
    else (findSubstrIdx needle cs).map (· + 1)

/-- Python `needle in haystack` on strings: contiguous substring test. -/
def containsSub (needle haystack : List Char) : Bool :=
  (findSubstrIdx needle haystack).isSome

/-- Python `str.lower()` restricted to ASCII case mapping. -/
def lowerChars (l : List Char) : List Char := l.map Char.toLower

/-- End position of the leftmost match of the pattern `<paper_id>\s*(\d*)`
in `text` (scraper.py 280-288): the first occurrence of the literal
`paper_id`, then a greedy whitespace run, then a greedy digit run.
Returns `none` when `paper_id` does not occur in `text`. -/
def match_end (paper_id text : List Char) : Option Nat :=
  (findSubstrIdx paper_id text).map (fun i =>
    let after := text.drop (i + paper_id.length)
    let ws := after.takeWhile Char.isWhitespace
    let ds := (after.drop ws.length).takeWhile Char.isDigit
    i + paper_id.length + ws.length + ds.length)

/-- Does the pattern `[A-Z]{5}\d+` match at the head of `l`? -/
def isNextPaperAt : List Char → Bool
  | a :: b :: c :: d :: e :: f :: _ =>
    a.isUpper && b.isUpper && c.isUpper && d.isUpper && e.isUpper && f.isDigit
  | _ => false

/-- Start of the leftmost `[A-Z]{5}\d+` match (scraper.py 293-294). -/
def nextPaperIdx : List Char → Option Nat
  | [] => none
  | c :: cs =>
    if isNextPaperAt (c :: cs) then some 0
    else (nextPaperIdx cs).map (· + 1)

/-- End markers consulted when no following paper id exists (scraper.py 300). -/
def end_markers : List (List Char) :=
  ["DOI:", "Received:", "Accepted:", "Paper:", "Cite:", "Export:"].map String.toList

/-- Fold of scraper.py 301-305: the minimum over the found end-marker
positions, starting from the length of the remaining text. -/
def minEndMarker (remaining : List Char) : Nat :=
  end_markers.foldl
    (fun acc m =>
      match findSubstrIdx m remaining with
      | some i => if i < acc then i else acc
      | none => acc)
    remaining.length

/-- Section content for one paper (scraper.py 291-306): cut at the next
`[A-Z]{5}\d+` occurrence when one exists, otherwise at the earliest end
marker (or the end of text when no marker occurs either). -/
def paper_content (remaining : List Char) : List Char :=
  match nextPaperIdx remaining with
  | some i => remaining.take i
  | none => remaining.take (minEndMarker remaining)

/-- Non-empty stripped lines of the section content (scraper.py 309). -/
def section_lines (remaining : List Char) : List (List Char) :=
  ((splitOnChar '\n' (paper_content remaining)).map trimChars).filter
    (fun l => !l.isEmpty)

/-- Test of scraper.py 318: `re.match(r'^\d{1,3}$', line)`. -/
def isPageNumberLine (l : List Char) : Bool :=
  !l.isEmpty && decide (l.length ≤ 3) && l.all Char.isDigit

/-- First purely numeric 1-3 digit line, or empty when there is none
(scraper.py 316-320; the `break` makes only the first match count). -/
def find_page_number (lines : List (List Char)) : List Char :=
  match lines.find? isPageNumberLine with
  | some l => l
  | none => []

/-- Case-insensitive keywords that exclude a comma line from the author
branch (scraper.py 335). -/
def author_stop_keywords : List (List Char) :=
  ["funding", "doi", "received", "accepted"].map String.toList

/-- Institution indicator substrings (scraper.py 338-340). -/
def institution_keywords : List (List Char) :=
  ["University", "Laboratory", "Institute", "Center", "Corporation",
   "School", "Facility", "National", "Synchrotron", "KEK", "FRIB", "LBNL",
   "DESY", "SLAC", "CERN", "Jefferson Lab", "Argonne"].map String.toList

/-- Markers a long line must not start with to count as abstract text
(scraper.py 343). -/
def abstract_stop_markers : List (List Char) :=
  ["Funding:", "DOI:", "Received:", "Accepted:"].map String.toList

/-- Author-line test of scraper.py 335. -/
def isAuthorLine (l : List Char) : Bool :=
  l.contains ',' && decide (1 < (splitOnChar ',' l).length) &&
    !(author_stop_keywords.any (fun kw => containsSub kw (lowerChars l)))

/-- Institution-line test of scraper.py 338-340. -/
def isInstitutionLine (l : List Char) : Bool :=
  institution_keywords.any (fun kw => containsSub kw l)

/-- Abstract-line test of scraper.py 343. -/
def isAbstractLine (l : List Char) : Bool :=
  decide (20 < l.length) && !(abstract_stop_markers.any (fun m => m.isPrefixOf l))

/-- Outcome of the if/elif classification chain of scraper.py 329-344. -/
inductive LineClass where
  | skip
  | author
  | institution
  | abstract
  | noise
deriving DecidableEq, Repr

/-- Classification of one line in the order the chain of scraper.py 329-344
tests it: lines equal to the assigned title or page number are skipped,
then the author test, then the institution test, then the abstract test. -/
def classify_line (title page l : List Char) : LineClass :=
  if l = title ∨ l = page then LineClass.skip
  else if isAuthorLine l then LineClass.author
  else if isInstitutionLine l then LineClass.institution
  else if isAbstractLine l then LineClass.abstract
  else LineClass.noise

/-- Accumulated line buckets of scraper.py 323-325. -/
structure ClassAcc where
  author_lines : List (List Char)
  institution_lines : List (List Char)
  abstract_lines : List (List Char)
deriving DecidableEq, Repr

/-- One iteration of the classification loop (scraper.py 329-344). -/
def classify_step (title page : List Char) (acc : ClassAcc) (l : List Char) : ClassAcc :=
  match classify_line title page l with
  | LineClass.author => { acc with author_lines := acc.author_lines ++ [l] }
  | LineClass.institution => { acc with institution_lines := acc.institution_lines ++ [l] }
  | LineClass.abstract => { acc with abstract_lines := acc.abstract_lines ++ [l] }
  | _ => acc

/-- The whole classification loop over the section lines. -/
def classify_fold (title page : List Char) (lines : List (List Char)) : ClassAcc :=
  lines.foldl (classify_step title page) ⟨[], [], []⟩

/-- Comma tokens of one author line: split on commas, strip each token,
keep the non-empty ones (scraper.py 351). -/
def author_tokens (l : List Char) : List (List Char) :=
  ((splitOnChar ',' l).map trimChars).filter (fun t => !t.isEmpty)

/-- Accumulation of scraper.py 347-353: extend the author list with each
author line's tokens, in encounter order. -/
def all_authors (author_lines : List (List Char)) : List (List Char) :=
  author_lines.foldl (fun acc l => acc ++ author_tokens l) []

/-- Python `' '.join(abstract_lines)` (scraper.py 361). -/
def abstract_text (abstract_lines : List (List Char)) : List Char :=
  List.intercalate [' '] abstract_lines

/-- Talk-PDF URL template (scraper.py 266). -/
def derive_talk_url (paper_id : String) : String :=
  "https://proceedings.jacow.org/srf2019/talks/" ++ paper_id.toLower ++ "_talk.pdf"

/-- Paper-PDF URL template (scraper.py 267). -/
def derive_paper_url (paper_id : String) : String :=
  "https://proceedings.jacow.org/srf2019/papers/" ++ paper_id.toLower ++ ".pdf"

/-- Poster-PDF URL template (scraper.py 268). -/
def derive_poster_url (paper_id : String) : String :=
  "https://proceedings.jacow.org/srf2019/posters/" ++ paper_id.toLower ++ "_poster.pdf"

/-- DOI URL template (scraper.py 269). -/
def derive_doi (paper_id : String) : String :=
  "https://doi.org/10.18429/JACoW-SRF2019-" ++ paper_id

/-- The paper dictionary built by `extract_paper_details_from_page`
(scraper.py 260-274). -/
structure PaperInfo where
  paper_id : String
  title : String
  authors : List String
  institutions : List String
  abstract : String
  presentation_url : String
  paper_url : String
  poster_url : String
  doi : String
  page_number : String
  presentation_available : Bool
  paper_available : Bool
  poster_available : Bool
deriving DecidableEq, Repr

/-- Initial record (scraper.py 260-274): derived URLs populated, every
textual field empty, every availability flag false. -/
def initial_paper_info (paper_id : String) : PaperInfo :=
  { paper_id := paper_id
    title := ""
    authors := []
    institutions := []
    abstract := ""
    presentation_url := derive_talk_url paper_id
    paper_url := derive_paper_url paper_id
    poster_url := derive_poster_url paper_id
    doi := derive_doi paper_id
    page_number := ""
    presentation_available := false
    paper_available := false
    poster_available := false }

/-- Shallow embedding of `extract_paper_details_from_page` (scraper.py
249-368).  The three network probes done through `check_pdf_exists` are
abstracted as the oracle `probe : String -> Bool` applied to the derived
URLs; when the paper id is not found the code returns the initial record
before any probe runs. -/
def extract_paper_details_from_page (page_text paper_id : String)
    (probe : String → Bool) : PaperInfo :=
  match match_end paper_id.toList page_text.toList with
  | none => initial_paper_info paper_id
  | some e =>
    let remaining := page_text.toList.drop e
    let lines := section_lines remaining
    let title := match lines with | [] => [] | l :: _ => l
    let page := find_page_number lines
    let acc := classify_fold title page lines
    { initial_paper_info paper_id with
      title := String.mk title
      page_number := String.mk page
      authors := (all_authors acc.author_lines).map String.mk
      institutions := acc.institution_lines.map String.mk
      abstract := String.mk (abstract_text acc.abstract_lines)
      presentation_available := probe (derive_talk_url paper_id)
      paper_available := probe (derive_paper_url paper_id)
      poster_available := probe (derive_poster_url paper_id) }

/-- Fuel-driven worker for `re.findall(session_id + r'(\d+)', page_text)`
(scraper.py 227-228): non-overlapping leftmost matches, each contributing
its digit capture group; the scan resumes after each match. -/
def findallNumsGo (sid : List Char) : Nat → List Char → List (List Char)
  | 0, _ => []
  | _ + 1, [] => []
  | fuel + 1, c :: cs =>
    if sid.isPrefixOf (c :: cs) then
      let rest := (c :: cs).drop sid.length
      let ds := rest.takeWhile Char.isDigit
      if ds.isEmpty then findallNumsGo sid fuel cs
      else ds :: findallNumsGo sid fuel (rest.drop ds.length)
    else findallNumsGo sid fuel cs

/-- All digit groups matched in the session page text (scraper.py 227-228). -/
def paper_matches (session_id page_text : String) : List (List Char) :=
  findallNumsGo session_id.toList page_text.toList.length page_text.toList

/-- Lexicographic strict comparison on character lists: exactly Python's
`<` on strings made of the same characters. -/
def strLtB : List Char → List Char → Bool
  | [], [] => false
  | [], _ :: _ => true
  | _ :: _, [] => false
  | a :: as, b :: bs =>
    if a < b then true else if b < a then false else strLtB as bs

/-- Non-strict companion of `strLtB`, the sorting relation. -/
def strLeB (a b : List Char) : Bool := !(strLtB b a)

/-- Insertion into an already sorted list. -/
def insertSorted (x : List Char) : List (List Char) → List (List Char)
  | [] => [x]
  | y :: ys => if strLeB x y then x :: y :: ys else y :: insertSorted x ys

/-- Insertion sort: the model of Python `sorted` on strings. -/
def sortStrings (l : List (List Char)) : List (List Char) :=
  l.foldr insertSorted []

/-- Python `sorted(list(set(paper_matches)))` (scraper.py 235): deduplicate
the digit groups, then sort them as Python sorts strings. -/
def paper_nums (session_id page_text : String) : List (List Char) :=
  sortStrings (paper_matches session_id page_text).dedup

/-- Shallow embedding of `extract_papers_from_session` (scraper.py 206-247):
each deduplicated, sorted suffix yields one extracted paper record (the
`if paper_info` guard always holds since the dictionary is never empty). -/
def extract_papers_from_session (page_text session_id : String)
    (probe : String → Bool) : List PaperInfo :=
  (paper_nums session_id page_text).map
    (fun num => extract_paper_details_from_page page_text (session_id ++ String.mk num) probe)

/-- Outcome of the HEAD request issued by `check_pdf_exists`: either an
exception (connection error, timeout - anything the bare `except` of
scraper.py 383 catches) or a response carrying a status code and an
optional `content-type` header. -/
inductive ProbeResponse where
  | failure
  | response (status_code : Nat) (content_type : Option String)
deriving DecidableEq, Repr

/-- Python `response.headers.get('content-type', '')`. -/
def headers_get_content_type : Option String → String
  | some ct => ct
  | none => ""

/-- Shallow embedding of `check_pdf_exists` (scraper.py 370-384): true
exactly when the status code is 200 and the lower-cased content type
contains `pdf`; any exception yields false. -/
def check_pdf_exists (r : ProbeResponse) : Bool :=
  match r with
  | ProbeResponse.failure => false
  | ProbeResponse.response status ct =>
    status == 200 &&
      containsSub "pdf".toList (lowerChars (headers_get_content_type ct).toList)

/-- The `paper_count` field written by `save_session_data` (scraper.py 504). -/
def session_paper_count (papers : List PaperInfo) : Nat := papers.length

/-- Python `sum(1 for p in papers if p.get('presentation_available', False))`
(scraper.py 552). -/
def available_presentations (papers : List PaperInfo) : Nat :=
  papers.foldl (fun acc p => if p.presentation_available then acc + 1 else acc) 0

/-- Python `sum(1 for p in papers if p.get('paper_available', False))`
(scraper.py 553). -/
def available_papers_count (papers : List PaperInfo) : Nat :=
  papers.foldl (fun acc p => if p.paper_available then acc + 1 else acc) 0

/-- Python `sum(1 for p in papers if p.get('poster_available', False))`
(scraper.py 554). -/
def available_posters (papers : List PaperInfo) : Nat :=
  papers.foldl (fun acc p => if p.poster_available then acc + 1 else acc) 0

/-- Formalisation of claim C1's wording: the integer denoted by a digit
string, used to state the ascending-as-integers ordering the claim asserts. -/
def digitsToNat (l : List Char) : Nat :=
  l.foldl (fun acc c => acc * 10 + (c.toNat - 48)) 0

/-- Formalisation of claim C5's wording: the number of non-empty trimmed
comma-separated tokens of a line. -/
def claim_author_token_count (l : List Char) : Nat :=
  (((splitOnChar ',' l).map trimChars).filter (fun t => !t.isEmpty)).length

/-! Helper lemmas characterising the scanning and folding functions. -/

theorem splitOnChar_ne_nil (sep : Char) (l : List Char) : splitOnChar sep l ≠ [] := by
  induction l with
  | nil => simp [splitOnChar]
  | cons c cs ih =>
    simp only [splitOnChar]
    split
    · simp
    · cases h : splitOnChar sep cs <;> simp

theorem contains_comma_iff_split (l : List Char) :
    l.contains ',' = true ↔ 1 < (splitOnChar ',' l).length := by
  induction l with
  | nil => simp [splitOnChar]
  | cons c cs ih =>
    by_cases hc : c = ','
    · subst hc
      rw [show splitOnChar ',' (',' :: cs) = [] :: splitOnChar ',' cs from by
        simp [splitOnChar]]
      have := List.length_pos.mpr (splitOnChar_ne_nil ',' cs)
      simp only [List.length_cons, List.contains_cons]
      constructor
      · intro _; omega
      · intro _; simp
    · rw [List.contains_cons,
        show (',' == c) = false from by
          rw [beq_eq_false_iff_ne]; exact fun h => hc h.symm]
      simp only [Bool.false_or, splitOnChar, if_neg hc]
      cases h : splitOnChar ',' cs with
      | nil => exact absurd h (splitOnChar_ne_nil ',' cs)
      | cons t ts =>
        rw [h] at ih
        simpa using ih

theorem nextPaperIdx_eq_some (l : List Char) (i : Nat) (h : nextPaperIdx l = some i) :
    isNextPaperAt (l.drop i) = true ∧ ∀ j, j < i → isNextPaperAt (l.drop j) = false := by
  induction l generalizing i with
  | nil => simp [nextPaperIdx] at h
  | cons c cs ih =>
    rw [nextPaperIdx] at h
    split at h
    · rename_i hc
      cases h
      exact ⟨hc, fun j hj => absurd hj (Nat.not_lt_zero j)⟩
    · rename_i hc
      rw [Bool.not_eq_true] at hc
      cases ho : nextPaperIdx cs with
      | none => rw [ho] at h; simp at h
      | some i' =>
        rw [ho] at h
        simp only [Option.map_some'] at h
        cases h
        obtain ⟨h1, h2⟩ := ih i' ho
        refine ⟨h1, fun j hj => ?_⟩
        cases j with
        | zero => simpa using hc
        | succ j' =>
          have : j' < i' := Nat.lt_of_succ_lt_succ hj
          simpa using h2 j' this

theorem nextPaperIdx_eq_none (l : List Char) (h : nextPaperIdx l = none) :
    ∀ j, isNextPaperAt (l.drop j) = false := by
  induction l with
  | nil => intro j; simp [isNextPaperAt]
  | cons c cs ih =>
    rw [nextPaperIdx] at h
    split at h
    · simp at h
    · rename_i hc
      rw [Bool.not_eq_true] at hc
      intro j
      cases j with
      | zero => simpa using hc
      | succ j' =>
        cases ho : nextPaperIdx cs with
        | none => simpa using ih ho j'
        | some i' => rw [ho] at h; simp at h

theorem foldl_marker_min (r : List Char) (ms : List (List Char)) (a : Nat) :
    (ms.foldl (fun acc m =>
        match findSubstrIdx m r with
        | some i => if i < acc then i else acc
        | none => acc) a) ≤ a ∧
    (∀ m ∈ ms, ∀ k, findSubstrIdx m r = some k →
      (ms.foldl (fun acc m =>
        match findSubstrIdx m r with
        | some i => if i < acc then i else acc
        | none => acc) a) ≤ k) ∧
    ((ms.foldl (fun acc m =>
        match findSubstrIdx m r with
        | some i => if i < acc then i else acc
        | none => acc) a) = a ∨
      ∃ m ∈ ms, findSubstrIdx m r = some
        (ms.foldl (fun acc m =>
          match findSubstrIdx m r with
          | some i => if i < acc then i else acc
          | none => acc) a)) := by
  induction ms generalizing a with
  | nil => exact ⟨Nat.le_refl a, by simp, Or.inl rfl⟩
  | cons m ms ih =>
    simp only [List.foldl_cons]
    set a' := (match findSubstrIdx m r with
      | some i => if i < a then i else a
      | none => a) with ha'
    obtain ⟨ihle, ihmem, iheq⟩ := ih a'
    have ha'le : a' ≤ a := by
      rw [ha']
      cases hf : findSubstrIdx m r with
      | none => exact Nat.le_refl a
      | some i =>
        simp only
        split
        · omega
        · exact Nat.le_refl a
    have ha'opt : a' = a ∨ findSubstrIdx m r = some a' := by
      rw [ha']
      cases hf : findSubstrIdx m r with
      | none => exact Or.inl rfl
      | some i =>
        simp only
        split
        · exact Or.inr rfl
        · exact Or.inl rfl
    refine ⟨Nat.le_trans ihle ha'le, ?_, ?_⟩
    · intro m' hm' k hk
      rcases List.mem_cons.mp hm' with hm' | hm'
      · subst hm'
        have : a' ≤ k := by
          rw [ha', hk]
          simp only
          split
          · exact Nat.le_refl k
          · omega
        exact Nat.le_trans ihle this
      · exact ihmem m' hm' k hk
    · rcases iheq with iheq | ⟨m', hm', hfind⟩
      · rcases ha'opt with h | h
        · exact Or.inl (iheq.trans h)
        · exact Or.inr ⟨m, List.mem_cons_self m ms, by rw [iheq]; exact h⟩
      · exact Or.inr ⟨m', List.mem_cons_of_mem m hm', hfind⟩

theorem find?_append_of_forall_false (p : List Char → Bool)
    (front : List (List Char)) (l : List Char) (back : List (List Char))
    (hfront : ∀ x ∈ front, p x = false) (hl : p l = true) :
    List.find? p (front ++ l :: back) = some l := by
  induction front with
  | nil => simp [List.find?_cons_of_pos _ hl]
  | cons x xs ih =>
    have hx := hfront x (List.mem_cons_self x xs)
    rw [List.cons_append, List.find?_cons_of_neg _ (by simp [hx])]
    exact ih (fun y hy => hfront y (List.mem_cons_of_mem x hy))

theorem findSubstrIdx_eq_none_of_no_occurrence (needle h : List Char)
    (hyp : ∀ i, needle.isPrefixOf (h.drop i) = false) :
    findSubstrIdx needle h = none := by
  induction h with
  | nil =>
    have h0 := hyp 0
    simp only [List.drop_nil] at h0
    rw [findSubstrIdx]
    have : needle ≠ [] := by
      intro hn
      subst hn
      simp [List.isPrefixOf] at h0
    simp [List.isEmpty_iff, this]
  | cons c cs ih =>
    rw [findSubstrIdx]
    have h0 := hyp 0
    simp only [List.drop_zero] at h0
    rw [if_neg (by simp [h0])]
    rw [ih (fun i => by simpa using hyp (i + 1))]
    rfl

theorem findSubstrIdx_some_isPrefixOf (needle h : List Char) (i : Nat)
    (hf : findSubstrIdx needle h = some i) :
    needle.isPrefixOf (h.drop i) = true := by
  induction h generalizing i with
  | nil =>
    rw [findSubstrIdx] at hf
    split at hf
    · rename_i he
      cases hf
      simp_all [List.isEmpty_iff, List.isPrefixOf]
    · simp at hf
  | cons c cs ih =>
    rw [findSubstrIdx] at hf
    split at hf
    · rename_i hp
      cases hf
      simpa using hp
    · cases ho : findSubstrIdx needle cs with
      | none => rw [ho] at hf; simp at hf
      | some i' =>
        rw [ho] at hf
        simp only [Option.map_some'] at hf
        cases hf
        simpa using ih i' ho

theorem classify_fold_author_eq (title page : List Char) (lines : List (List Char)) :
    (classify_fold title page lines).author_lines =
      lines.filter (fun l => decide (classify_line title page l = LineClass.author)) := by
  suffices h : ∀ acc : ClassAcc,
      (lines.foldl (classify_step title page) acc).author_lines =
        acc.author_lines ++
          lines.filter (fun l => decide (classify_line title page l = LineClass.author)) by
    simpa [classify_fold] using h ⟨[], [], []⟩
  induction lines with
  | nil => intro acc; simp
  | cons l ls ih =>
    intro acc
    rw [List.foldl_cons, ih]
    rw [List.filter_cons]
    cases hc : classify_line title page l <;>
      simp [classify_step, hc, List.append_assoc]

theorem all_authors_eq_flatten (als : List (List Char)) :
    all_authors als = (als.map author_tokens).flatten := by
  suffices h : ∀ acc : List (List Char),
      als.foldl (fun acc l => acc ++ author_tokens l) acc =
        acc ++ (als.map author_tokens).flatten by
    simpa [all_authors] using h []
  induction als with
  | nil => intro acc; simp
  | cons l ls ih =>
    intro acc
    rw [List.foldl_cons, ih]
    simp [List.append_assoc]

theorem foldl_count_eq_countP (f : PaperInfo → Bool) (papers : List PaperInfo) (n : Nat) :
    papers.foldl (fun acc p => if f p then acc + 1 else acc) n = n + papers.countP f := by
  induction papers generalizing n with
  | nil => simp
  | cons p ps ih =>
    rw [List.foldl_cons, ih, List.countP_cons]
    by_cases hf : f p = true <;> simp [hf] <;> omega

theorem strLtB_asymm (a b : List Char) (h : strLtB a b = true) : strLtB b a = false := by
  induction a generalizing b with
  | nil =>
    cases b with
    | nil => simp [strLtB] at h
    | cons y ys => simp [strLtB]
  | cons x xs ih =>
    cases b with
    | nil => simp [strLtB] at h
    | cons y ys =>
      rw [strLtB] at h ⊢
      by_cases hxy : x < y
      · rw [if_neg (fun hyx => absurd hxy (lt_asymm hyx)), if_pos hxy]
      · rw [if_neg hxy] at h
        by_cases hyx : y < x
        · rw [if_pos hyx] at h; simp at h
        · rw [if_neg hyx] at h
          rw [if_neg hyx, if_neg hxy]
          exact ih ys h

theorem strLtB_trans : ∀ a b c : List Char,
    strLtB a b = true → strLtB b c = true → strLtB a c = true
  | [], [], _, h1, _ => by simp [strLtB] at h1
  | [], _ :: _, [], _, h2 => by simp [strLtB] at h2
  | [], _ :: _, _ :: _, _, _ => by simp [strLtB]
  | _ :: _, [], _, h1, _ => by simp [strLtB] at h1
  | _ :: _, _ :: _, [], _, h2 => by simp [strLtB] at h2
  | x :: xs, y :: ys, z :: zs, h1, h2 => by
    rw [strLtB] at h1 h2 ⊢
    by_cases hxy : x < y
    · by_cases hyz : y < z
      · rw [if_pos (lt_trans hxy hyz)]
      · by_cases hzy : z < y
        · rw [if_neg hyz, if_pos hzy] at h2; simp at h2
        · have hyzeq : y = z := le_antisymm (not_lt.mp hzy) (not_lt.mp hyz)
          subst hyzeq
          rw [if_pos hxy]
    · rw [if_neg hxy] at h1
      by_cases hyx : y < x
      · rw [if_pos hyx] at h1; simp at h1
      · rw [if_neg hyx] at h1
        have hxyeq : x = y := le_antisymm (not_lt.mp hyx) (not_lt.mp hxy)
        subst hxyeq
        by_cases hxz : x < z
        · rw [if_pos hxz]
        · by_cases hzx : z < x
          · rw [if_neg hxz, if_pos hzx] at h2; simp at h2
          · rw [if_neg hxz, if_neg hzx] at h2
            rw [if_neg hxz, if_neg hzx]
            exact strLtB_trans xs ys zs h1 h2

theorem strLtB_trichotomy (a b : List Char) (hne : a ≠ b) :
    strLtB a b = true ∨ strLtB b a = true := by
  induction a generalizing b with
  | nil =>
    cases b with
    | nil => exact absurd rfl hne
    | cons y ys => exact Or.inl (by simp [strLtB])
  | cons x xs ih =>
    cases b with
    | nil => exact Or.inr (by simp [strLtB])
    | cons y ys =>
      rcases lt_trichotomy x y with hxy | hxy | hxy
      · exact Or.inl (by rw [strLtB, if_pos hxy])
      · subst hxy
        have hne' : xs ≠ ys := fun h => hne (by rw [h])
        rcases ih ys hne' with h | h
        · exact Or.inl (by rw [strLtB, if_neg (lt_irrefl x), if_neg (lt_irrefl x)]; exact h)
        · exact Or.inr (by rw [strLtB, if_neg (lt_irrefl x), if_neg (lt_irrefl x)]; exact h)
      · exact Or.inr (by rw [strLtB, if_pos hxy])

theorem strLeB_total (a b : List Char) : strLeB a b = true ∨ strLeB b a = true := by
  by_cases hab : strLtB a b = true
  · exact Or.inl (by simp [strLeB, strLtB_asymm a b hab])
  · exact Or.inr (by simp only [strLeB, Bool.not_eq_true']; simpa using hab)

theorem strLtB_of_strLeB_of_ne (a b : List Char) (hle : strLeB a b = true) (hne : a ≠ b) :
    strLtB a b = true := by
  rcases strLtB_trichotomy a b hne with h | h
  · exact h
  · simp [strLeB, h] at hle

theorem strLeB_trans (a b c : List Char) (h1 : strLeB a b = true) (h2 : strLeB b c = true) :
    strLeB a c = true := by
  simp only [strLeB, Bool.not_eq_true'] at h1 h2 ⊢
  by_contra hca
  rw [Bool.not_eq_false] at hca
  by_cases hbc : b = c
  · subst hbc
    rw [hca] at h1
    simp at h1
  · rcases strLtB_trichotomy b c hbc with h | h
    · have := strLtB_trans b c a h hca
      rw [this] at h1
      simp at h1
    · rw [h] at h2
      simp at h2

theorem mem_insertSorted (x y : List Char) (l : List (List Char)) :
    y ∈ insertSorted x l ↔ y = x ∨ y ∈ l := by
  induction l with
  | nil => simp [insertSorted]
  | cons z zs ih =>
    rw [insertSorted]
    split
    · simp [List.mem_cons]
    · simp only [List.mem_cons, ih]
      tauto

theorem perm_insertSorted (x : List Char) (l : List (List Char)) :
    (insertSorted x l).Perm (x :: l) := by
  induction l with
  | nil => simp [insertSorted]
  | cons z zs ih =>
    rw [insertSorted]
    split
    · exact List.Perm.refl _
    · exact List.Perm.trans (List.Perm.cons z ih) (List.Perm.swap x z zs)

theorem pairwise_insertSorted (x : List Char) (l : List (List Char))
    (h : List.Pairwise (fun a b => strLeB a b = true) l) :
    List.Pairwise (fun a b => strLeB a b = true) (insertSorted x l) := by
  induction l with
  | nil => simp [insertSorted]
  | cons z zs ih =>
    rw [insertSorted]
    rw [List.pairwise_cons] at h
    obtain ⟨hz, hzs⟩ := h
    split
    · rename_i hxz
      rw [List.pairwise_cons]
      refine ⟨?_, List.pairwise_cons.mpr ⟨hz, hzs⟩⟩
      intro y hy
      rcases List.mem_cons.mp hy with rfl | hy
      · exact hxz
      · exact strLeB_trans x z y hxz (hz y hy)
    · rename_i hxz
      rw [List.pairwise_cons]
      refine ⟨?_, ih hzs⟩
      intro y hy
      rcases (mem_insertSorted x y zs).mp hy with rfl | hy
      · rcases strLeB_total z y with h | h
        · exact h
        · exact absurd h (by simpa using hxz)
      · exact hz y hy

theorem sortStrings_perm (l : List (List Char)) : (sortStrings l).Perm l := by
  induction l with
  | nil => simp [sortStrings]
  | cons x xs ih =>
    rw [sortStrings, List.foldr_cons]
    exact (perm_insertSorted x _).trans (List.Perm.cons x ih)

theorem sortStrings_pairwise_le (l : List (List Char)) :
    List.Pairwise (fun a b => strLeB a b = true) (sortStrings l) := by
  induction l with
  | nil => simp [sortStrings]
  | cons x xs ih =>
    rw [sortStrings, List.foldr_cons]
    exact pairwise_insertSorted x _ ih

theorem sortStrings_nodup (l : List (List Char)) (h : l.Nodup) : (sortStrings l).Nodup :=
  (sortStrings_perm l).symm.nodup h

theorem sortStrings_pairwise_lt (l : List (List Char)) (h : l.Nodup) :
    List.Pairwise (fun a b => strLtB a b = true) (sortStrings l) := by
  have hp := sortStrings_pairwise_le l
  have hn := sortStrings_nodup l h
  exact (hp.and hn).imp (fun hab => strLtB_of_strLeB_of_ne _ _ hab.1 hab.2)

theorem extract_fixed_fields (text pid : String) (probe : String → Bool) :
    (extract_paper_details_from_page text pid probe).paper_id = pid ∧
    (extract_paper_details_from_page text pid probe).presentation_url = derive_talk_url pid ∧
    (extract_paper_details_from_page text pid probe).paper_url = derive_paper_url pid ∧
    (extract_paper_details_from_page text pid probe).poster_url = derive_poster_url pid ∧
    (extract_paper_details_from_page text pid probe).doi = derive_doi pid := by
  rw [extract_paper_details_from_page]
  cases h : match_end pid.toList text.toList with
  | none => simp [initial_paper_info]
  | some e => simp [initial_paper_info]

/-! Claim theorems. -/

/-- C1 counterexample: for session `MOFAA` and text `MOFAA2 MOFAA10` the
segmenter returns the suffixes in the order `10, 2` - Python sorts the
suffix strings lexicographically - so the output is not ascending as
integers, contrary to the claim that suffix 2 precedes suffix 10. -/
theorem segmenter_not_integer_sorted :
    paper_nums "MOFAA" "MOFAA2 MOFAA10" = ["10".toList, "2".toList] ∧
    digitsToNat "10".toList = 10 ∧
    digitsToNat "2".toList = 2 ∧
    ¬ List.Pairwise (fun a b => digitsToNat a < digitsToNat b)
        (paper_nums "MOFAA" "MOFAA2 MOFAA10") := by
  refine ⟨by decide, by decide, by decide, ?_⟩
  intro h
  rw [show paper_nums "MOFAA" "MOFAA2 MOFAA10" = ["10".toList, "2".toList] from by decide] at h
  exact absurd ((List.pairwise_cons.mp h).1 ("2".toList) (by simp)) (by decide)

/-- C1 amended: the segmenter returns the numeric suffixes deduplicated and
sorted ascending lexicographically as strings, so the output is duplicate
free and strictly ascending in string order (not integer order), and the
session extraction maps them in that order to paper identifiers. -/
theorem segmenter_nodup_sorted_lexicographic (session_id page_text : String)
    (probe : String → Bool) :
    (paper_nums session_id page_text).Nodup ∧
    List.Pairwise (fun a b => strLtB a b = true) (paper_nums session_id page_text) ∧
    (extract_papers_from_session page_text session_id probe).map (fun p => p.paper_id) =
      (paper_nums session_id page_text).map (fun num => session_id ++ String.mk num) := by
  refine ⟨sortStrings_nodup _ (List.nodup_dedup _),
    sortStrings_pairwise_lt _ (List.nodup_dedup _), ?_⟩
  rw [extract_papers_from_session, List.map_map]
  apply List.map_congr_left
  intro num hnum
  exact (extract_fixed_fields page_text (session_id ++ String.mk num) probe).1

/-- C2 counterexample: extracting `MOFAA1` from a text where `DOI:` occurs
at offset 6 of the remaining text but the next paper-identifier shape only
at offset 42, the section runs to offset 42 (keeping the `DOI:` line and
the following abstract line), not to the earlier end marker; so the
boundary is not the earlier of the two kinds. -/
theorem section_boundary_counterexample :
    nextPaperIdx ("MOFAA1 Title\nDOI: x\nThis is a long abstract line\nMOFAA2 Next".toList.drop 7) = some 42 ∧
    findSubstrIdx "DOI:".toList
      ("MOFAA1 Title\nDOI: x\nThis is a long abstract line\nMOFAA2 Next".toList.drop 7) = some 6 ∧
    paper_content ("MOFAA1 Title\nDOI: x\nThis is a long abstract line\nMOFAA2 Next".toList.drop 7) =
      ("MOFAA1 Title\nDOI: x\nThis is a long abstract line\nMOFAA2 Next".toList.drop 7).take 42 ∧
    paper_content ("MOFAA1 Title\nDOI: x\nThis is a long abstract line\nMOFAA2 Next".toList.drop 7) ≠
      ("MOFAA1 Title\nDOI: x\nThis is a long abstract line\nMOFAA2 Next".toList.drop 7).take 6 ∧
    (extract_paper_details_from_page
      "MOFAA1 Title\nDOI: x\nThis is a long abstract line\nMOFAA2 Next" "MOFAA1"
      (fun _ => false)).abstract = "This is a long abstract line" := by
  decide

/-- C2 amended: the section ends at the start of the next occurrence of the
generic paper-identifier shape when one exists after the start position;
only when none exists does it end at the earliest occurrence of an end
marker, and when no marker occurs either it runs to the end of text. -/
theorem section_boundary_characterisation (remaining : List Char) :
    (∀ i, nextPaperIdx remaining = some i →
      paper_content remaining = remaining.take i ∧
      isNextPaperAt (remaining.drop i) = true ∧
      ∀ j, j < i → isNextPaperAt (remaining.drop j) = false) ∧
    (nextPaperIdx remaining = none →
      (∀ j, isNextPaperAt (remaining.drop j) = false) ∧
      paper_content remaining = remaining.take (minEndMarker remaining) ∧
      minEndMarker remaining ≤ remaining.length ∧
      (∀ m ∈ end_markers, ∀ k, findSubstrIdx m remaining = some k →
        minEndMarker remaining ≤ k) ∧
      (minEndMarker remaining = remaining.length ∨
        ∃ m ∈ end_markers, findSubstrIdx m remaining = some (minEndMarker remaining))) := by
  constructor
  · intro i hi
    exact ⟨by rw [paper_content, hi], (nextPaperIdx_eq_some remaining i hi).1,
      (nextPaperIdx_eq_some remaining i hi).2⟩
  · intro hnone
    obtain ⟨hle, hmem, heq⟩ := foldl_marker_min remaining end_markers remaining.length
    exact ⟨nextPaperIdx_eq_none remaining hnone, by rw [paper_content, hnone],
      hle, hmem, heq⟩

/-- C2 witness: in `Title\nMOFAA2 x` the next paper shape starts at offset
6 and the section is cut exactly there. -/
theorem section_boundary_characterisation_witness :
    paper_content ("Title\nMOFAA2 x".toList) = "Title\n".toList :=
  ((section_boundary_characterisation ("Title\nMOFAA2 x".toList)).1 6
    (by decide)).1.trans (by decide)

/-- C5 counterexample: the line `X,` has only one non-empty comma token,
yet the code treats it as an author line (the split-length test counts
empty tokens) and its single token reaches the authors list. -/
theorem author_line_counterexample :
    classify_line "Title".toList [] "X,".toList = LineClass.author ∧
    claim_author_token_count "X,".toList = 1 ∧
    (extract_paper_details_from_page "MOFAA1 Title\nX," "MOFAA1"
      (fun _ => false)).authors = ["X"] := by
  decide

/-- C5 amended: a classified line (other than the title and page-number
lines) is treated as an author line exactly when it contains a comma and
contains none of the case-insensitive stop keywords; the two-or-more-parts
test of the code is implied by the comma.  The authors sequence is the
concatenation, over author lines in order, of the trimmed non-empty comma
tokens (a single line may contribute fewer than two tokens). -/
theorem author_line_iff_comma_and_no_keyword :
    (∀ title page l, l ≠ title → l ≠ page →
      (classify_line title page l = LineClass.author ↔
        l.contains ',' = true ∧
        (author_stop_keywords.any (fun kw => containsSub kw (lowerChars l))) = false)) ∧
    (∀ title page lines,
      all_authors (classify_fold title page lines).author_lines =
        ((lines.filter (fun l =>
          decide (classify_line title page l = LineClass.author))).map
            author_tokens).flatten) := by
  constructor
  · intro title page l hlt hlp
    rw [classify_line, if_neg (by tauto)]
    constructor
    · intro h
      by_cases ha : isAuthorLine l = true
      · rw [isAuthorLine] at ha
        simp only [Bool.and_eq_true, Bool.not_eq_true'] at ha
        exact ⟨ha.1.1, ha.2⟩
      · rw [if_neg ha] at h
        split at h
        · exact absurd h (by simp)
        · split at h
          · exact absurd h (by simp)
          · exact absurd h (by simp)
    · rintro ⟨hc, hk⟩
      have ha : isAuthorLine l = true := by
        have hsplit := (contains_comma_iff_split l).mp hc
        rw [isAuthorLine, hc]
        simp [hsplit, hk]
      rw [if_pos ha]
  · intro title page lines
    rw [classify_fold_author_eq, all_authors_eq_flatten]

/-- C5 witness: a genuine two-token author line is classified as authors. -/
theorem author_line_iff_comma_and_no_keyword_witness :
    classify_line "T".toList [] "A. Smith, B. Jones".toList = LineClass.author :=
  (author_line_iff_comma_and_no_keyword.1 "T".toList [] "A. Smith, B. Jones".toList
    (by decide) (by decide)).mpr (by decide)

/-- C6: the author test runs before the institution test, so every line
passing the author test is classified as authors even when it also
contains an institution keyword; in particular the constructed line
`Jefferson Lab, A. Smith, B. Jones` lands in authors and not in
institutions. -/
theorem author_priority_over_institution :
    (∀ title page l, l ≠ title → l ≠ page → isAuthorLine l = true →
      classify_line title page l = LineClass.author) ∧
    (extract_paper_details_from_page "MOFAA1 Some Title\nJefferson Lab, A. Smith, B. Jones"
      "MOFAA1" (fun _ => false)).authors = ["Jefferson Lab", "A. Smith", "B. Jones"] ∧
    (extract_paper_details_from_page "MOFAA1 Some Title\nJefferson Lab, A. Smith, B. Jones"
      "MOFAA1" (fun _ => false)).institutions = [] ∧
    isInstitutionLine "Jefferson Lab, A. Smith, B. Jones".toList = true := by
  refine ⟨?_, by decide, by decide, by decide⟩
  intro title page l h1 h2 ha
  rw [classify_line, if_neg (by tauto), if_pos ha]

/-- C6 witness: the constructed line is classified as authors. -/
theorem author_priority_over_institution_witness :
    classify_line "Some Title".toList [] "Jefferson Lab, A. Smith, B. Jones".toList =
      LineClass.author :=
  author_priority_over_institution.1 "Some Title".toList []
    "Jefferson Lab, A. Smith, B. Jones".toList (by decide) (by decide) (by decide)

/-- C8: the page number of an extracted record is the first section line
that is purely numeric with 1-3 digits, and later numeric lines never
overwrite it; in the documented scenario the second numeric line `99`
leaves the page number at `12`. -/
theorem page_number_first_numeric_line :
    (∀ (text pid : String) (probe : String → Bool) e front l back,
      match_end pid.toList text.toList = some e →
      section_lines (text.toList.drop e) = front ++ l :: back →
      (∀ x ∈ front, isPageNumberLine x = false) →
      isPageNumberLine l = true →
      (extract_paper_details_from_page text pid probe).page_number = String.mk l) ∧
    (extract_paper_details_from_page
      "MOFAA1 Advances in SRF Cavities\n12\nA. Smith, B. Jones\n99" "MOFAA1"
      (fun _ => false)).page_number = "12" := by
  refine ⟨?_, by decide⟩
  intro text pid probe e front l back hme hsec hfront hl
  rw [extract_paper_details_from_page, hme]
  simp only [hsec, find_page_number,
    find?_append_of_forall_false isPageNumberLine front l back hfront hl]

/-- C8 witness: in a section whose lines are `T`, `7`, `9` the page number
is the first numeric line `7`. -/
theorem page_number_first_numeric_line_witness :
    (extract_paper_details_from_page "MOFAA1 T\n7\n9" "MOFAA1"
      (fun _ => false)).page_number = "7" :=
  page_number_first_numeric_line.1 "MOFAA1 T\n7\n9" "MOFAA1" (fun _ => false) 7
    ["T".toList] "7".toList ["9".toList] (by decide) (by decide) (by decide) (by decide)

/-- C10: the page-number scan includes the first section line, which is
also assigned as the title; when the first non-empty line of a section is
itself purely numeric with 1-3 digits, the record's title and page number
are both that line. -/
theorem numeric_first_line_is_title_and_page (text pid : String)
    (probe : String → Bool) (e : Nat) (l : List Char) (ls : List (List Char))
    (hme : match_end pid.toList text.toList = some e)
    (hsec : section_lines (text.toList.drop e) = l :: ls)
    (hl : isPageNumberLine l = true) :
    (extract_paper_details_from_page text pid probe).title = String.mk l ∧
    (extract_paper_details_from_page text pid probe).page_number = String.mk l := by
  rw [extract_paper_details_from_page, hme]
  simp only [hsec, find_page_number, List.find?_cons_of_pos _ hl]
  exact ⟨trivial, trivial⟩

/-- C10 witness: after the id match consumes `MOFAA1 5`, the section of
`MOFAA1 5 12\nSome long abstract line here` starts with the numeric line
`12`, which becomes both title and page number. -/
theorem numeric_first_line_is_title_and_page_witness :
    (extract_paper_details_from_page "MOFAA1 5 12\nSome long abstract line here"
      "MOFAA1" (fun _ => false)).title = "12" ∧
    (extract_paper_details_from_page "MOFAA1 5 12\nSome long abstract line here"
      "MOFAA1" (fun _ => false)).page_number = "12" :=
  numeric_first_line_is_title_and_page "MOFAA1 5 12\nSome long abstract line here"
    "MOFAA1" (fun _ => false) 8 "12".toList ["Some long abstract line here".toList]
    (by decide) (by decide) (by decide)

/-- C3: `check_pdf_exists` returns true exactly when the probe produced a
response with success status 200 whose declared content type contains
`pdf` case-insensitively; every transport failure or exception and every
non-matching content type yields false.  The function is total, which
models that the operation never raises. -/
theorem check_pdf_exists_iff_success_and_pdf (r : ProbeResponse) :
    (check_pdf_exists r = true ↔
      ∃ status ct, r = ProbeResponse.response status ct ∧ status = 200 ∧
        containsSub "pdf".toList
          (lowerChars (headers_get_content_type ct).toList) = true) ∧
    check_pdf_exists ProbeResponse.failure = false := by
  refine ⟨?_, rfl⟩
  cases r with
  | failure =>
    simp only [check_pdf_exists]
    constructor
    · intro h; simp at h
    · rintro ⟨status, ct, h, -, -⟩; simp at h
  | response status ct =>
    simp only [check_pdf_exists, Bool.and_eq_true, beq_iff_eq]
    constructor
    · rintro ⟨h200, hpdf⟩
      exact ⟨status, ct, rfl, h200, hpdf⟩
    · rintro ⟨status', ct', heq, h200, hpdf⟩
      cases heq
      exact ⟨h200, hpdf⟩

/-- C3 witness: a 200 response declaring `application/pdf` probes true. -/
theorem check_pdf_exists_iff_success_and_pdf_witness :
    check_pdf_exists (ProbeResponse.response 200 (some "application/pdf")) = true :=
  (check_pdf_exists_iff_success_and_pdf
      (ProbeResponse.response 200 (some "application/pdf"))).1.mpr
    ⟨200, some "application/pdf", rfl, rfl, by decide⟩

/-- C4: when the paper identifier occurs nowhere in the page text, the
extractor returns the initial record: empty title, authors, institutions,
abstract and page number, availability flags false, and the three resource
URLs and the DOI still derived from the identifier. -/
theorem extract_missing_id_gives_default (text pid : String) (probe : String → Bool)
    (h : ∀ i, i ≤ text.toList.length → pid.toList.isPrefixOf (text.toList.drop i) = false) :
    extract_paper_details_from_page text pid probe = initial_paper_info pid ∧
    (extract_paper_details_from_page text pid probe).title = "" ∧
    (extract_paper_details_from_page text pid probe).authors = [] ∧
    (extract_paper_details_from_page text pid probe).institutions = [] ∧
    (extract_paper_details_from_page text pid probe).abstract = "" ∧
    (extract_paper_details_from_page text pid probe).page_number = "" ∧
    (extract_paper_details_from_page text pid probe).presentation_available = false ∧
    (extract_paper_details_from_page text pid probe).paper_available = false ∧
    (extract_paper_details_from_page text pid probe).poster_available = false ∧
    (extract_paper_details_from_page text pid probe).presentation_url = derive_talk_url pid ∧
    (extract_paper_details_from_page text pid probe).paper_url = derive_paper_url pid ∧
    (extract_paper_details_from_page text pid probe).poster_url = derive_poster_url pid ∧
    (extract_paper_details_from_page text pid probe).doi = derive_doi pid := by
  have hall : ∀ i, pid.toList.isPrefixOf (text.toList.drop i) = false := by
    intro i
    by_cases hi : i ≤ text.toList.length
    · exact h i hi
    · rw [List.drop_eq_nil_of_le (by omega)]
      have hlen := h text.toList.length (Nat.le_refl _)
      rwa [List.drop_length] at hlen
  have hnone : findSubstrIdx pid.toList text.toList = none :=
    findSubstrIdx_eq_none_of_no_occurrence _ _ hall
  have hmain : extract_paper_details_from_page text pid probe = initial_paper_info pid := by
    rw [extract_paper_details_from_page, match_end, hnone]
    rfl
  refine ⟨hmain, ?_⟩
  rw [hmain]
  simp [initial_paper_info]

/-- C4 witness: `MOFAA1` does not occur in `"no papers here"`, and the
extractor returns the pure-default record for it. -/
theorem extract_missing_id_gives_default_witness :
    extract_paper_details_from_page "no papers here" "MOFAA1" (fun _ => false) =
      initial_paper_info "MOFAA1" :=
  (extract_missing_id_gives_default "no papers here" "MOFAA1" (fun _ => false)
    (by decide)).1

/-- C7: the three resource URLs and the DOI of every extracted record are
pure functions of the paper identifier, matching the fixed templates
bit-exactly; records extracted from different texts or probe outcomes
carry identical URL fields for the same identifier. -/
theorem derived_urls_pure_and_template_exact (text1 text2 pid : String)
    (probe1 probe2 : String → Bool) :
    (extract_paper_details_from_page text1 pid probe1).presentation_url =
      "https://proceedings.jacow.org/srf2019/talks/" ++ pid.toLower ++ "_talk.pdf" ∧
    (extract_paper_details_from_page text1 pid probe1).paper_url =
      "https://proceedings.jacow.org/srf2019/papers/" ++ pid.toLower ++ ".pdf" ∧
    (extract_paper_details_from_page text1 pid probe1).poster_url =
      "https://proceedings.jacow.org/srf2019/posters/" ++ pid.toLower ++ "_poster.pdf" ∧
    (extract_paper_details_from_page text1 pid probe1).doi =
      "https://doi.org/10.18429/JACoW-SRF2019-" ++ pid ∧
    (extract_paper_details_from_page text1 pid probe1).presentation_url =
      (extract_paper_details_from_page text2 pid probe2).presentation_url ∧
    (extract_paper_details_from_page text1 pid probe1).paper_url =
      (extract_paper_details_from_page text2 pid probe2).paper_url ∧
    (extract_paper_details_from_page text1 pid probe1).poster_url =
      (extract_paper_details_from_page text2 pid probe2).poster_url ∧
    (extract_paper_details_from_page text1 pid probe1).doi =
      (extract_paper_details_from_page text2 pid probe2).doi := by
  obtain ⟨-, hu1, hu2, hu3, hu4⟩ := extract_fixed_fields text1 pid probe1
  obtain ⟨-, hv1, hv2, hv3, hv4⟩ := extract_fixed_fields text2 pid probe2
  rw [hu1, hu2, hu3, hu4, hv1, hv2, hv3, hv4]
  exact ⟨rfl, rfl, rfl, rfl, rfl, rfl, rfl, rfl⟩

/-- C9: the session-level counts are full recounts of the paper sequence:
`paper_count` is the length of the papers list and each per-type available
count equals the number of papers whose corresponding flag is true. -/
theorem session_counts_are_full_recounts (papers : List PaperInfo) :
    session_paper_count papers = papers.length ∧
    available_presentations papers = papers.countP (fun p => p.presentation_available) ∧
    available_papers_count papers = papers.countP (fun p => p.paper_available) ∧
    available_posters papers = papers.countP (fun p => p.poster_available) := by
  refine ⟨rfl, ?_, ?_, ?_⟩ <;>
    simpa using foldl_count_eq_countP _ papers 0
